import Mathlib

/-!
# Verification of the openclaw project/task workflow engine and task-runner supervisor

Shallow embedding of:
* `src/project/types.ts` — task status enumeration, transition tables, row types;
* `src/project/service.ts` — the `ProjectService` workflow actions
  (`task_start`, `task_request_review`, `task_approve`, `task_request_changes`,
  `task_merge`, `task_resolve_conflict`, `task_build`, `task_deploy`,
  `task_complete`, `task_cancel`, `task_block`, `task_unblock`, `task_next`);
* `src/project/git.ts` — `mergeBranch` conflict classification;
* `src/task-runner/recover.ts` — `recoverTaskRunnerState`.

The SQL store is modelled by explicit row values: the race-safe conditional
update `UPDATE … SET status=? WHERE id=? AND status IN (…)` with
`affectedRows == 1` becomes, for a single task row, a check that the current
status is in the allowed-from list.  External collaborators (the git CLI,
`process.kill`-based liveness probing, `JSON.parse`, clock reads) are passed
in as explicit arguments, mirroring the spec's treatment of them as opaque
collaborators.
-/

namespace Openclaw

/-- The 12-value task status enum of `src/project/types.ts` (`TASK_STATUSES`). -/
inductive TaskStatus
  | requirements
  | implementing
  | review_requested
  | approved
  | changes_requested
  | merging
  | merge_conflict
  | building
  | deploying
  | done
  | cancelled
  | blocked
  deriving DecidableEq, Repr

/-- `project_tasks` row (`TaskRow` in `src/project/types.ts`), restricted to the
fields the workflow actions read or write.  `created_at` and `completed_at`
are abstract timestamps (`DATETIME` columns). -/
structure TaskRow where
  id : Nat
  project_id : String
  title : String
  status : TaskStatus
  status_before_blocked : Option TaskStatus
  requires_branching : Bool
  requires_human_review : Bool
  priority : Int
  git_branch : Option String
  worktree_path : Option String
  block_reason : Option String
  created_at : Nat
  completed_at : Option Nat
  deriving DecidableEq, Repr

/-- `projects` row (`ProjectRow`), restricted to the fields the task workflow reads. -/
structure ProjectRow where
  id : String
  workspace_path : Option String
  has_build_step : Bool
  has_deploy_step : Bool
  deriving DecidableEq, Repr

/-- One `task_status_history` row as inserted by `transitionTaskStatus`. -/
structure TaskStatusHistoryRow where
  from_status : Option TaskStatus
  to_status : TaskStatus
  actor : Option String
  reason : Option String
  deriving DecidableEq, Repr

/-- The slice of database state one workflow action touches: the target task
row, its project row, and the append-only history log for that task. -/
structure WfState where
  task : TaskRow
  project : ProjectRow
  history : List TaskStatusHistoryRow
  deriving DecidableEq, Repr

/-- Result of a fallible, possibly state-mutating action: the database state
after the call together with `some errorMessage` when the call threw.  A
thrown error does not roll back updates already executed (no transactions in
`ProjectService`), so the state component is meaningful in the error case. -/
abbrev WfResult := WfState × Option String

/-- The `status_before_blocked` column is
`ENUM('requirements','implementing','review_requested','approved','changes_requested','merging','merge_conflict','building','deploying')`
(migrations, `project_tasks`): exactly the nine non-terminal, non-blocked
statuses.  This list is also the allowed-from set of `task_block`. -/
def BLOCKABLE_STATUSES : List TaskStatus :=
  [.requirements, .implementing, .review_requested, .approved, .changes_requested,
   .merging, .merge_conflict, .building, .deploying]

/-- `ProjectService.transitionTaskStatus`: conditional
`UPDATE … WHERE id=? AND status IN (allowedFrom)`; when exactly one row is
affected (here: the current status is in `allowedFrom`), append a
`task_status_history` row and return the reloaded task; otherwise throw
`Task status transition failed` leaving the state untouched. -/
def transitionTaskStatus (s : WfState) (toStatus : TaskStatus)
    (allowedFrom : List TaskStatus) (actor reason : Option String) : WfResult :=
  if s.task.status ∈ allowedFrom then
    ({ s with
        task := { s.task with status := toStatus },
        history := s.history ++
          [{ from_status := some s.task.status, to_status := toStatus,
             actor := actor, reason := reason }] }, none)
  else
    (s, some "Task status transition failed")

/-- `pickPostMergeStatus` from `src/project/service.ts`. -/
def pickPostMergeStatus (task : TaskRow) (project : ProjectRow) : TaskStatus :=
  if !task.requires_branching then
    if project.has_build_step then .building
    else if project.has_deploy_step then .deploying
    else .done
  else
    if project.has_build_step then .building
    else if project.has_deploy_step then .deploying
    else .done

/-- `ProjectService.task_start`.  `gitOk` is the outcome of the
`createWorktree` collaborator (git CLI); a git failure propagates after the
status transition has already committed. -/
def task_start (gitOk : Bool) (actor reason : Option String) (s : WfState) : WfResult :=
  match transitionTaskStatus s .implementing [.requirements, .changes_requested]
      actor (some (reason.getD "task started")) with
  | (s1, some e) => (s1, some e)
  | (s1, none) =>
    if s1.task.requires_branching then
      match s1.project.workspace_path with
      | none => (s1, some "Project workspace_path required for branching tasks")
      | some ws =>
        if gitOk then
          ({ s1 with
              task := { s1.task with
                git_branch := some ("task/" ++ toString s1.task.id),
                worktree_path :=
                  some (ws ++ "/worktrees/task-" ++ toString s1.task.id) } }, none)
        else (s1, some "createWorktree failed")
    else (s1, none)

/-- `ProjectService.task_approve`: always from `review_requested`; also from
`implementing`/`changes_requested` when the task does not require human review. -/
def task_approve (actor reason : Option String) (s : WfState) : WfResult :=
  let allowedFrom : List TaskStatus :=
    if !s.task.requires_human_review then
      [.review_requested, .implementing, .changes_requested]
    else [.review_requested]
  transitionTaskStatus s .approved allowedFrom actor (some (reason.getD "approved"))

/-- `ProjectService.task_request_review`: auto-approve (reason
`"auto-approved"`) when the task does not require human review, else
transition to `review_requested`. -/
def task_request_review (actor reason : Option String) (s : WfState) : WfResult :=
  if !s.task.requires_human_review then
    task_approve actor (some "auto-approved") s
  else
    transitionTaskStatus s .review_requested [.implementing, .changes_requested]
      actor (some (reason.getD "review requested"))

/-- `ProjectService.task_request_changes`. -/
def task_request_changes (actor reason : Option String) (s : WfState) : WfResult :=
  transitionTaskStatus s .changes_requested [.review_requested]
    actor (some (reason.getD "changes requested"))

/-- `ProjectService.task_complete`: force-move to `done` from any
non-cancelled, non-done status, then set `completed_at=CURRENT_TIMESTAMP`
(`nowT`). -/
def task_complete (nowT : Nat) (actor reason : Option String) (s : WfState) : WfResult :=
  match transitionTaskStatus s .done
      [.requirements, .implementing, .review_requested, .approved, .changes_requested,
       .merging, .building, .deploying, .merge_conflict]
      actor (some (reason.getD "completed")) with
  | (s1, some e) => (s1, some e)
  | (s1, none) =>
    ({ s1 with task := { s1.task with completed_at := some nowT } }, none)

/-- Outcome of the `git merge --no-ff <branch>` child process as observed by
`mergeBranch` in `src/project/git.ts`: either a zero exit (with captured
stdout/stderr) or a thrown `execFile` error carrying optional `stdout`,
`stderr` and `message` fields. -/
inductive GitMergeExec
  | exitZero (stdout stderr : String)
  | nonZero (stdout stderr message : Option String)
  deriving DecidableEq, Repr

/-- Return shape of `mergeBranch`, extended with `abortIssued` recording
whether the best-effort `git merge --abort` side effect was invoked. -/
structure MergeResult where
  success : Bool
  conflict : Bool
  output : String
  abortIssued : Bool
  deriving DecidableEq, Repr

/-- JS `haystack.includes(needle)` on strings: the character list of `needle`
occurs contiguously inside the character list of `haystack`. -/
def strIncludes (haystack needle : String) : Bool :=
  decide (needle.toList <:+: haystack.toList)

/-- JS `String.prototype.toLowerCase`, character-wise (ASCII-faithful). -/
def jsToLower (s : String) : String :=
  String.mk (s.data.map Char.toLower)

/-- Strip whitespace from both ends of a character list (JS
`String.prototype.trim` on the underlying characters). -/
def trimList (l : List Char) : List Char :=
  ((l.dropWhile Char.isWhitespace).reverse.dropWhile Char.isWhitespace).reverse

/-- JS `String.prototype.trim`. -/
def jsTrim (s : String) : String :=
  String.mk (trimList s.data)

/-- `mergeBranch` from `src/project/git.ts`: on zero exit return
`{success:true, conflict:false}`; on a thrown error concatenate
`stdout ?? "" + stderr ?? "" + message ?? ""`, trim, lower-case, and classify
as a conflict when the result contains `"conflict"` or
`"automatic merge failed"`; issue `git merge --abort` (best-effort) exactly
in the conflict case. -/
def mergeBranch : GitMergeExec → MergeResult
  | .exitZero stdout stderr =>
    { success := true, conflict := false,
      output := jsTrim (stdout ++ stderr), abortIssued := false }
  | .nonZero stdout stderr message =>
    let output := jsTrim ((stdout.getD "") ++ (stderr.getD "") ++ (message.getD ""))
    let lower := jsToLower output
    let conflict := strIncludes lower "conflict" || strIncludes lower "automatic merge failed"
    { success := false, conflict := conflict, output := output, abortIssued := conflict }

/-- The part of `ProjectService.task_merge` that runs after the transition to
`merging` has committed (state `s1`): check `workspace_path`/`git_branch`, run
`mergeBranch` (outcome `g`), transition to `merge_conflict` on conflict, throw
on other failures, and on success advance to `pickPostMergeStatus` — setting
`completed_at` when that is `done`. -/
def task_merge_git_phase (g : GitMergeExec) (nowT : Nat) (actor : Option String)
    (s1 : WfState) : WfResult :=
  if s1.project.workspace_path = none ∨ s1.task.git_branch = none then
    (s1, some "workspace_path and git_branch required for merge")
  else
    let merged := mergeBranch g
    if !merged.success then
      if merged.conflict then
        transitionTaskStatus s1 .merge_conflict [.merging] actor (some merged.output)
      else (s1, some ("Merge failed: " ++ merged.output))
    else
      let next := pickPostMergeStatus s1.task s1.project
      if next = .done then
        match transitionTaskStatus s1 .done [.merging] actor (some merged.output) with
        | (s2, some e) => (s2, some e)
        | (s2, none) =>
          ({ s2 with task := { s2.task with completed_at := some nowT } }, none)
      else
        transitionTaskStatus s1 next [.merging] actor (some merged.output)

/-- `ProjectService.task_merge`.  `g` is the outcome of the single
`git merge --no-ff` invocation (used only on the branching path), `nowT` the
store clock for `completed_at`.  For a non-branching task, skip ahead per
`pickPostMergeStatus` (delegating to `task_complete` when that is `done`);
otherwise transition to `merging` and run the git phase. -/
def task_merge (g : GitMergeExec) (nowT : Nat) (actor reason : Option String)
    (s : WfState) : WfResult :=
  if !s.task.requires_branching then
    let next := pickPostMergeStatus s.task s.project
    if next = .done then
      task_complete nowT actor (some "completed without merge") s
    else
      transitionTaskStatus s next [.approved, .implementing]
        actor (some "advanced without merge")
  else
    match transitionTaskStatus s .merging [.approved, .merge_conflict]
        actor (some (reason.getD "merging")) with
    | (s1, some e) => (s1, some e)
    | (s1, none) => task_merge_git_phase g nowT actor s1

/-- `ProjectService.task_resolve_conflict`. -/
def task_resolve_conflict (actor reason : Option String) (s : WfState) : WfResult :=
  transitionTaskStatus s .merging [.merge_conflict]
    actor (some (reason.getD "conflict resolved"))

/-- `ProjectService.task_build`: requires `project.has_build_step`; moves to
`deploying` when a deploy step is configured, else straight to `done`.
Note: the `done` branch does not touch `completed_at`. -/
def task_build (actor reason : Option String) (s : WfState) : WfResult :=
  if !s.project.has_build_step then
    (s, some "project has_build_step is false")
  else
    transitionTaskStatus s (if s.project.has_deploy_step then .deploying else .done)
      [.building, .merging, .approved]
      actor (some (reason.getD "build complete"))

/-- `ProjectService.task_deploy`: moves to `done` from
`{deploying, building, merging, approved}`.  Note: does not touch
`completed_at`. -/
def task_deploy (actor reason : Option String) (s : WfState) : WfResult :=
  transitionTaskStatus s .done [.deploying, .building, .merging, .approved]
    actor (some (reason.getD "deploy complete"))

/-- `ProjectService.task_cancel`: move to `cancelled` from any status except
`cancelled` itself, then best-effort `removeWorktree` (no database effect).
Neither `status_before_blocked` nor `completed_at` is touched. -/
def task_cancel (actor reason : Option String) (s : WfState) : WfResult :=
  transitionTaskStatus s .cancelled
    [.requirements, .implementing, .review_requested, .approved, .changes_requested,
     .merging, .merge_conflict, .building, .deploying, .blocked, .done]
    actor (some (reason.getD "cancelled"))

/-- `ProjectService.task_block`: a no-op returning the current row when the
task is already `blocked`; otherwise save the prior status into
`status_before_blocked` (plus `block_reason`) and transition to `blocked`.
The saving `UPDATE` writes the current status into the nine-value
`status_before_blocked` ENUM column, so on a `done`/`cancelled` task it is
rejected by the store (strict SQL mode) and the call throws without
mutating anything. -/
def task_block (actor reason : Option String) (s : WfState) : WfResult :=
  if s.task.status = .blocked then
    (s, none)
  else if s.task.status ∈ BLOCKABLE_STATUSES then
    let s1 : WfState :=
      { s with task := { s.task with
          status_before_blocked := some s.task.status,
          block_reason := reason } }
    transitionTaskStatus s1 .blocked BLOCKABLE_STATUSES
      actor (some (reason.getD "blocked"))
  else
    (s, some "Data truncated for column status_before_blocked")

/-- `ProjectService.task_unblock`: throws when the task is not blocked;
otherwise clear `status_before_blocked`/`block_reason` and transition back to
the saved status (default `requirements`). -/
def task_unblock (actor reason : Option String) (s : WfState) : WfResult :=
  if s.task.status ≠ .blocked then
    (s, some "task is not blocked")
  else
    let restore := s.task.status_before_blocked.getD .requirements
    let s1 : WfState :=
      { s with task := { s.task with
          status_before_blocked := none, block_reason := none } }
    transitionTaskStatus s1 restore [.blocked]
      actor (some (reason.getD "unblocked"))

/-- The twelve task-workflow actions of `ProjectService`, with the outcomes of
their external collaborators (git) baked into the action value. -/
inductive WfAction
  | start (gitOk : Bool)
  | requestReview
  | approve
  | requestChanges
  | merge (g : GitMergeExec)
  | resolveConflict
  | build
  | deploy
  | complete
  | cancel
  | block
  | unblock
  deriving Repr

/-- Dispatch a workflow action against the single-task state slice. -/
def applyAction (a : WfAction) (nowT : Nat) (actor reason : Option String)
    (s : WfState) : WfResult :=
  match a with
  | .start gitOk => task_start gitOk actor reason s
  | .requestReview => task_request_review actor reason s
  | .approve => task_approve actor reason s
  | .requestChanges => task_request_changes actor reason s
  | .merge g => task_merge g nowT actor reason s
  | .resolveConflict => task_resolve_conflict actor reason s
  | .build => task_build actor reason s
  | .deploy => task_deploy actor reason s
  | .complete => task_complete nowT actor reason s
  | .cancel => task_cancel actor reason s
  | .block => task_block actor reason s
  | .unblock => task_unblock actor reason s

/-- A `project_task_dependencies` row. -/
structure TaskDependencyRow where
  task_id : Nat
  depends_on_id : Nat
  deriving DecidableEq, Repr

/-- The store contents `task_next` queries: all `project_tasks` rows and all
`project_task_dependencies` rows. -/
structure TaskDb where
  tasks : List TaskRow
  deps : List TaskDependencyRow
  deriving Repr

/-- The `NOT EXISTS` subquery of `task_next`: is there a dependency row for
`t` joined (`dep.id = d.depends_on_id`) to a task whose status is not `done`? -/
def hasUnmetDep (db : TaskDb) (t : TaskRow) : Bool :=
  db.deps.any fun d =>
    d.task_id == t.id &&
    db.tasks.any fun dep => dep.id == d.depends_on_id && dep.status != .done

/-- The `WHERE` clause of `task_next`: project match, status in the six-value
eligible set, status not `blocked` (redundant with the `IN` list, kept as in
the SQL), and no unmet dependency. -/
def taskNextWhere (db : TaskDb) (projectId : String) (t : TaskRow) : Bool :=
  t.project_id == projectId &&
  [TaskStatus.requirements, .implementing, .changes_requested,
   .review_requested, .approved, .merge_conflict].contains t.status &&
  t.status != .blocked &&
  !hasUnmetDep db t

/-- The strict version of `ORDER BY priority DESC, created_at ASC, id ASC`:
`a` sorts strictly before `b`. -/
def taskBefore (a b : TaskRow) : Prop :=
  b.priority < a.priority ∨
    (a.priority = b.priority ∧
      (a.created_at < b.created_at ∨
        (a.created_at = b.created_at ∧ a.id < b.id)))

instance : DecidablePred fun p : TaskRow × TaskRow => taskBefore p.1 p.2 := by
  intro p; unfold taskBefore; infer_instance

instance (a b : TaskRow) : Decidable (taskBefore a b) := by
  unfold taskBefore; infer_instance

/-- One step of selecting the first row of `ORDER BY … LIMIT 1`: keep the
accumulator unless the next row sorts strictly before it. -/
def orderPick (acc : Option TaskRow) (t : TaskRow) : Option TaskRow :=
  match acc with
  | none => some t
  | some b => if taskBefore t b then some t else some b

/-- `ProjectService.task_next`: the row of the filtered set that comes first
under `ORDER BY priority DESC, created_at ASC, id ASC` (`LIMIT 1`), or `null`
when the filtered set is empty. -/
def task_next (db : TaskDb) (projectId : String) : Option TaskRow :=
  (db.tasks.filter (taskNextWhere db projectId)).foldl orderPick none

/-- Task-runner statuses (`src/task-runner/types.ts`). -/
inductive TrStatus
  | pending
  | running
  | stopped
  | failed
  | killed
  | timeout
  | lost
  deriving DecidableEq, Repr

/-- `isTerminal` from the task-runner recovery module. -/
def isTerminal (status : TrStatus) : Bool :=
  status == .stopped || status == .failed || status == .killed ||
  status == .timeout || status == .lost

/-- A supervisor `TaskRecord` (`src/task-runner/types.ts`), restricted to the
fields `recoverTaskRunnerState` reads or writes.  `logPath`/`pidPath` are
optional here because a state file read back from disk may lack them. -/
structure TaskRecord where
  id : String
  status : TrStatus
  pid : Option Int
  command : String
  createdAt : Int
  startedAt : Option Int
  endedAt : Option Int
  updatedAt : Int
  logPath : Option String
  pidPath : Option String
  stdinAttached : Bool
  deriving DecidableEq, Repr

/-- The persisted supervisor state document `{version:1, updatedAt, tasks}`;
the task map is carried as an association list (`Object.values` iterates the
values). -/
structure TaskRunnerStateFile where
  updatedAt : Int
  tasks : List (String × TaskRecord)
  deriving DecidableEq, Repr

/-- The path-recomputation step of the `recoverTaskRunnerState` loop body:
recompute `logPath`/`pidPath` under the state directory `dir` when missing.
Returns the updated record and whether it was mutated. -/
def refreshPaths (dir : String) (t0 : TaskRecord) : TaskRecord × Bool :=
  let (t1, c1) :=
    match t0.logPath with
    | none => ({ t0 with logPath := some (dir ++ "/logs/" ++ t0.id ++ ".log") }, true)
    | some _ => (t0, false)
  match t1.pidPath with
  | none => ({ t1 with pidPath := some (dir ++ "/pids/" ++ t1.id ++ ".pid") }, true)
  | some _ => (t1, c1)

/-- The liveness-reconciliation step of the `recoverTaskRunnerState` loop
body, applied to the record `t3` (paths refreshed, `stdinAttached` reset): a
`running`/`pending` record whose pid is absent, `0` (JS-falsy) or not alive
is marked `lost` with `endedAt = endedAt ?? now`; so is a record whose status
is somehow neither running/pending nor terminal.  `alive` is the
`process.kill(pid, 0)` probe. -/
def reconcileStatus (alive : Int → Bool) (nowT : Int) (t3 : TaskRecord) (c2 : Bool) :
    TaskRecord × Bool :=
  let lostify : TaskRecord × Bool :=
    ({ t3 with status := .lost,
               endedAt := some (t3.endedAt.getD nowT),
               updatedAt := nowT }, true)
  if t3.status = .running ∨ t3.status = .pending then
    match t3.pid with
    | none => lostify
    | some pid => if pid = 0 then lostify else if alive pid then (t3, c2) else lostify
  else if !isTerminal t3.status then
    lostify
  else (t3, c2)

/-- The per-record reconciliation loop body of `recoverTaskRunnerState`
(`src/task-runner/recover.ts`): recompute missing `logPath`/`pidPath`, reset
`stdinAttached := false`, then reconcile the status against process liveness. -/
def recoverRecord (alive : Int → Bool) (nowT : Int) (dir : String)
    (t0 : TaskRecord) : TaskRecord × Bool :=
  let (t2, c2) := refreshPaths dir t0
  reconcileStatus alive nowT { t2 with stdinAttached := false } c2

/-- The whole reconciliation pass of `recoverTaskRunnerState` over a
successfully parsed, well-shaped state file: every record is put through
`recoverRecord`, `changed` accumulates, `updatedAt` is refreshed. -/
def recoverParsedState (alive : Int → Bool) (nowT : Int) (dir : String)
    (st : TaskRunnerStateFile) : TaskRunnerStateFile × Bool :=
  let step := st.tasks.map fun kv => (kv.1, recoverRecord alive nowT dir kv.2)
  ({ updatedAt := nowT, tasks := step.map fun kv => (kv.1, kv.2.1) },
   step.any fun kv => kv.2.2)

/-- A JavaScript value as producible by `JSON.parse`. -/
inductive JSValue
  | null
  | bool (b : Bool)
  | num (n : Int)
  | str (s : String)
  | arr (xs : List JSValue)
  | obj (fields : List (String × JSValue))
  deriving Repr

/-- JS falsiness of a `JSON.parse` result (`!parsed`). -/
def JSValue.falsy : JSValue → Bool
  | .null => true
  | .bool b => !b
  | .num n => n == 0
  | .str s => s == ""
  | .arr _ => false
  | .obj _ => false

/-- Property access `v.key`: `none` models JS `undefined`. -/
def JSValue.getField (v : JSValue) (key : String) : Option JSValue :=
  match v with
  | .obj fields => (fields.find? fun kv => kv.1 == key).map fun kv => kv.2
  | _ => none

/-- JS `typeof x === "object"` for a possibly-undefined value: true for
`null`, arrays and objects, false for `undefined` and other primitives. -/
def jsTypeofObject : Option JSValue → Bool
  | some .null => true
  | some (.arr _) => true
  | some (.obj _) => true
  | _ => false

/-- JS strict equality `x === 1` for a possibly-undefined value. -/
def jsStrictEqOne : Option JSValue → Bool
  | some (.num n) => n == 1
  | _ => false

/-- What `fs.readFile(statePath)` produced: a thrown error (missing file) or
the file's text. -/
inductive ReadOutcome
  | missing
  | present (raw : String)
  deriving Repr

/-- How the guard phase of `recoverTaskRunnerState` ends: an early return of
the fresh empty state `{version:1, tasks:{}}` with the given `changed` flag,
or fall-through to the reconciliation loop over the parsed value. -/
inductive RecoverGuard
  | earlyEmpty (changed : Bool)
  | proceed (v : JSValue)
  deriving Repr

/-- The read/parse/shape-check prefix of `recoverTaskRunnerState`
(`src/task-runner/recover.ts`, before the per-record loop).  `parse` is the
`JSON.parse` collaborator (`none` models a thrown `SyntaxError`):
* read failure leaves `raw = null`, and `if (!raw)` also catches an empty
  (JS-falsy) file content — both return the empty state with `changed:false`;
* an unparsable body returns the empty state with `changed:true`;
* so does a parsed value that is falsy, has `version !== 1`, or whose
  `tasks` field fails `typeof tasks === "object"`. -/
def recoverGuardPhase (read : ReadOutcome) (parse : String → Option JSValue) :
    RecoverGuard :=
  match read with
  | .missing => .earlyEmpty false
  | .present raw =>
    if raw == "" then .earlyEmpty false
    else
      match parse raw with
      | none => .earlyEmpty true
      | some parsed =>
        if parsed.falsy then .earlyEmpty true
        else if !jsStrictEqOne (parsed.getField "version") then .earlyEmpty true
        else if !jsTypeofObject (parsed.getField "tasks") then .earlyEmpty true
        else .proceed parsed

/-- The task status transition table exactly as the natural-language spec
states it in section 3 (and as claim C1 reads it): the nine listed rows, plus
`any non-terminal status → blocked`, `blocked → prior` (the saved
`status_before_blocked`, `requirements` when null), and
`any status → cancelled`.  This definition follows the SPEC's words, to be
compared against the behaviour of the source embedding. -/
def specSection3Base : TaskStatus → List TaskStatus
  | .requirements => [.implementing]
  | .implementing => [.review_requested, .approved]
  | .review_requested => [.approved, .changes_requested]
  | .changes_requested => [.implementing, .review_requested]
  | .approved => [.merging]
  | .merging => [.merge_conflict, .building, .deploying, .done]
  | .merge_conflict => [.merging]
  | .building => [.deploying, .done]
  | .deploying => [.done]
  | _ => []

/-- See `specSection3Base`: the full section-3 relation, including the
blocked/cancelled rules. -/
def specSection3Allowed (sbb : Option TaskStatus) (fromS toS : TaskStatus) : Bool :=
  (specSection3Base fromS).contains toS ||
  (BLOCKABLE_STATUSES.contains fromS && toS == .blocked) ||
  (fromS == .blocked && toS == sbb.getD .requirements) ||
  toS == .cancelled

/-- The transition table actually enforced by the `ProjectService` action
code: section 3's table extended with the transitions the individual action
methods additionally allow — `task_complete`'s force-move to `done` from
every non-terminal status, `task_merge`'s skip-ahead for non-branching tasks
(`implementing/approved → building/deploying`), `task_build`/`task_deploy`
from `approved`, `task_merge`'s within-one-call advance from
`approved`/`merge_conflict` through `merging` to
`merge_conflict`/`building`/`deploying`/`done`, and `task_approve` from
`changes_requested` when human review is not required. -/
def codeAllowedBase : TaskStatus → List TaskStatus
  | .requirements => [.implementing, .done]
  | .implementing => [.review_requested, .approved, .building, .deploying, .done]
  | .review_requested => [.approved, .changes_requested, .done]
  | .changes_requested => [.implementing, .review_requested, .approved, .done]
  | .approved => [.merging, .merge_conflict, .building, .deploying, .done]
  | .merging => [.merge_conflict, .building, .deploying, .done]
  | .merge_conflict => [.merging, .building, .deploying, .done]
  | .building => [.deploying, .done]
  | .deploying => [.done]
  | _ => []

/-- See `codeAllowedBase`: the full code-enforced relation, including the
blocked/cancelled rules. -/
def codeAllowed (sbb : Option TaskStatus) (fromS toS : TaskStatus) : Bool :=
  (codeAllowedBase fromS).contains toS ||
  (BLOCKABLE_STATUSES.contains fromS && toS == .blocked) ||
  (fromS == .blocked && toS == sbb.getD .requirements) ||
  toS == .cancelled

/-- Case split for the conditional `UPDATE`: either the current status is in
the allowed-from set and the transition commits (new status, appended history
row, `none` error), or nothing changes and an error is returned. -/
lemma transitionTaskStatus_cases (s : WfState) (toS : TaskStatus)
    (allowed : List TaskStatus) (actor reason : Option String) :
    (s.task.status ∈ allowed ∧
      transitionTaskStatus s toS allowed actor reason =
        (⟨{ s.task with status := toS }, s.project,
          s.history ++ [⟨some s.task.status, toS, actor, reason⟩]⟩, none)) ∨
    (s.task.status ∉ allowed ∧
      transitionTaskStatus s toS allowed actor reason =
        (s, some "Task status transition failed")) := by
  by_cases h : s.task.status ∈ allowed
  · left; exact ⟨h, by simp [transitionTaskStatus, h]⟩
  · right; exact ⟨h, by simp [transitionTaskStatus, h]⟩

lemma codeAllowed_of_base {sbb : Option TaskStatus} {fromS toS : TaskStatus}
    (h : (codeAllowedBase fromS).contains toS = true) :
    codeAllowed sbb fromS toS = true := by
  simp only [codeAllowed, h, Bool.true_or]

lemma codeAllowed_cancelled {sbb : Option TaskStatus} {fromS : TaskStatus} :
    codeAllowed sbb fromS .cancelled = true := by
  simp [codeAllowed]

lemma codeAllowed_blocked {sbb : Option TaskStatus} {fromS : TaskStatus}
    (h : fromS ∈ BLOCKABLE_STATUSES) :
    codeAllowed sbb fromS .blocked = true := by
  simp [codeAllowed, h]

lemma codeAllowed_unblock {sbb : Option TaskStatus} :
    codeAllowed sbb .blocked (sbb.getD .requirements) = true := by
  simp [codeAllowed]

/-- Transition soundness for one state transition: the post-call status is
either the pre-call status (failure) or allowed by the code-enforced table. -/
def StatusSound (s s' : WfState) : Prop :=
  s'.task.status = s.task.status ∨
  codeAllowed s.task.status_before_blocked s.task.status s'.task.status = true

lemma statusSound_transition (s : WfState) (toS : TaskStatus)
    (allowed : List TaskStatus) (actor reason : Option String)
    (h : ∀ f, f ∈ allowed → codeAllowed s.task.status_before_blocked f toS = true) :
    StatusSound s (transitionTaskStatus s toS allowed actor reason).1 := by
  rcases transitionTaskStatus_cases s toS allowed actor reason with ⟨hmem, heq⟩ | ⟨_, heq⟩
  · rw [heq]; exact Or.inr (h _ hmem)
  · rw [heq]; exact Or.inl rfl

lemma statusSound_start (gitOk : Bool) (actor reason : Option String) (s : WfState) :
    StatusSound s (task_start gitOk actor reason s).1 := by
  rcases transitionTaskStatus_cases s .implementing [.requirements, .changes_requested]
      actor (some (reason.getD "task started")) with ⟨hmem, heq⟩ | ⟨hmem, heq⟩
  · have hmem' : s.task.status = .requirements ∨ s.task.status = .changes_requested := by
      simpa using hmem
    simp only [task_start, heq]
    have hca : codeAllowed s.task.status_before_blocked s.task.status .implementing = true := by
      rcases hmem' with h | h <;> rw [h] <;> exact codeAllowed_of_base (by decide)
    rcases hgit : gitOk with _ | _ <;>
    rcases hrb : s.task.requires_branching with _ | _ <;>
    rcases hws : s.project.workspace_path with _ | ws <;>
      simp only [hgit, hrb, hws] <;>
      exact Or.inr hca
  · simp only [task_start, heq]
    exact Or.inl rfl

lemma transition_fst_status (s : WfState) (toS : TaskStatus) (allowed : List TaskStatus)
    (actor reason : Option String) :
    (transitionTaskStatus s toS allowed actor reason).1.task.status = toS ∨
    (transitionTaskStatus s toS allowed actor reason).1 = s := by
  rcases transitionTaskStatus_cases s toS allowed actor reason with ⟨_, heq⟩ | ⟨_, heq⟩ <;>
    rw [heq]
  · left; rfl
  · right; rfl

lemma statusSound_approve (actor reason : Option String) (s : WfState) :
    StatusSound s (task_approve actor reason s).1 := by
  cases hr : s.task.requires_human_review <;>
    simp only [task_approve, hr, Bool.not_false, Bool.not_true, if_true, if_false] <;>
    apply statusSound_transition <;>
    intro f hf
  · fin_cases hf <;> exact codeAllowed_of_base (by decide)
  · fin_cases hf <;> exact codeAllowed_of_base (by decide)

lemma statusSound_requestReview (actor reason : Option String) (s : WfState) :
    StatusSound s (task_request_review actor reason s).1 := by
  cases hr : s.task.requires_human_review
  · simp only [task_request_review, hr, Bool.not_false, if_true]
    exact statusSound_approve actor (some "auto-approved") s
  · simp only [task_request_review, hr, Bool.not_true, if_false]
    apply statusSound_transition
    intro f hf; fin_cases hf <;> exact codeAllowed_of_base (by decide)

lemma statusSound_requestChanges (actor reason : Option String) (s : WfState) :
    StatusSound s (task_request_changes actor reason s).1 := by
  apply statusSound_transition
  intro f hf; fin_cases hf <;> exact codeAllowed_of_base (by decide)

lemma statusSound_resolveConflict (actor reason : Option String) (s : WfState) :
    StatusSound s (task_resolve_conflict actor reason s).1 := by
  apply statusSound_transition
  intro f hf; fin_cases hf <;> exact codeAllowed_of_base (by decide)

lemma statusSound_deploy (actor reason : Option String) (s : WfState) :
    StatusSound s (task_deploy actor reason s).1 := by
  apply statusSound_transition
  intro f hf; fin_cases hf <;> exact codeAllowed_of_base (by decide)

lemma statusSound_cancel (actor reason : Option String) (s : WfState) :
    StatusSound s (task_cancel actor reason s).1 := by
  apply statusSound_transition
  intro f hf; exact codeAllowed_cancelled

lemma statusSound_build (actor reason : Option String) (s : WfState) :
    StatusSound s (task_build actor reason s).1 := by
  cases hb : s.project.has_build_step
  · simp only [task_build, hb, Bool.not_false, if_true]
    exact Or.inl rfl
  · cases hd : s.project.has_deploy_step <;>
      simp only [task_build, hb, hd, Bool.not_true, if_false, if_true] <;>
      apply statusSound_transition <;>
      intro f hf
    · fin_cases hf <;> exact codeAllowed_of_base (by decide)
    · fin_cases hf <;> exact codeAllowed_of_base (by decide)

lemma statusSound_complete (nowT : Nat) (actor reason : Option String) (s : WfState) :
    StatusSound s (task_complete nowT actor reason s).1 := by
  rcases transitionTaskStatus_cases s .done
      [.requirements, .implementing, .review_requested, .approved, .changes_requested,
       .merging, .building, .deploying, .merge_conflict]
      actor (some (reason.getD "completed")) with ⟨hmem, heq⟩ | ⟨_, heq⟩
  · have hca : codeAllowed s.task.status_before_blocked s.task.status .done = true := by
      have hmem' : s.task.status = .requirements ∨ s.task.status = .implementing ∨
          s.task.status = .review_requested ∨ s.task.status = .approved ∨
          s.task.status = .changes_requested ∨ s.task.status = .merging ∨
          s.task.status = .building ∨ s.task.status = .deploying ∨
          s.task.status = .merge_conflict := by simpa using hmem
      rcases hmem' with h|h|h|h|h|h|h|h|h <;> rw [h] <;> exact codeAllowed_of_base (by decide)
    simp only [task_complete, heq]
    exact Or.inr hca
  · simp only [task_complete, heq]
    exact Or.inl rfl

lemma statusSound_block (actor reason : Option String) (s : WfState) :
    StatusSound s (task_block actor reason s).1 := by
  by_cases hbl : s.task.status = .blocked
  · simp only [task_block, if_pos hbl]
    exact Or.inl rfl
  · by_cases henum : s.task.status ∈ BLOCKABLE_STATUSES
    · simp only [task_block, if_neg hbl, if_pos henum]
      rcases transitionTaskStatus_cases
          ⟨{ s.task with status_before_blocked := some s.task.status, block_reason := reason }, s.project, s.history⟩
          .blocked BLOCKABLE_STATUSES actor (some (reason.getD "blocked"))
          with ⟨hmem, heq⟩ | ⟨hnm, heq⟩
      · rw [heq]
        exact Or.inr (codeAllowed_blocked henum)
      · exact absurd henum hnm
    · simp only [task_block, if_neg hbl, if_neg henum]
      exact Or.inl rfl

lemma statusSound_unblock (actor reason : Option String) (s : WfState) :
    StatusSound s (task_unblock actor reason s).1 := by
  by_cases hbl : s.task.status = .blocked
  · simp only [task_unblock, if_neg (not_not_intro hbl)]
    rcases transitionTaskStatus_cases
        ⟨{ s.task with status_before_blocked := none, block_reason := none }, s.project, s.history⟩
        (s.task.status_before_blocked.getD .requirements) [.blocked] actor
        (some (reason.getD "unblocked"))
        with ⟨hmem, heq⟩ | ⟨hnm, heq⟩
    · rw [heq]
      right
      rw [hbl]
      exact codeAllowed_unblock
    · exact absurd (by simpa using hbl) hnm
  · simp only [task_unblock, if_pos hbl]
    exact Or.inl rfl

/-- Soundness of the git phase of `task_merge`, for any committed `merging`
state `s1`: every status it can leave behind is `merging`, `merge_conflict`,
`building`, `deploying` or `done`. -/
lemma statusSound_merge_git_phase (g : GitMergeExec) (nowT : Nat) (actor : Option String)
    (s s1 : WfState) (hst : s1.task.status = .merging)
    (hca : ∀ t2, t2 ∈ ([.merging, .merge_conflict, .building, .deploying,
        .done] : List TaskStatus) →
      t2 = s.task.status ∨
        codeAllowed s.task.status_before_blocked s.task.status t2 = true) :
    StatusSound s (task_merge_git_phase g nowT actor s1).1 := by
  have sound : ∀ t2, t2 ∈ ([.merging, .merge_conflict, .building, .deploying,
      .done] : List TaskStatus) → ∀ s2 : WfState, s2.task.status = t2 → StatusSound s s2 := by
    intro t2 ht2 s2 hs2
    rcases hca t2 ht2 with h | h
    · exact Or.inl (by rw [hs2, h])
    · exact Or.inr (by rw [hs2]; exact h)
  unfold task_merge_git_phase
  dsimp only
  split
  · exact sound .merging (by decide) s1 hst
  · split
    · split
      · rcases transition_fst_status s1 .merge_conflict [.merging] actor
            (some (mergeBranch g).output) with h | h
        · exact sound .merge_conflict (by decide) _ h
        · exact sound .merging (by decide) _ (by rw [h, hst])
      · exact sound .merging (by decide) s1 hst
    · split
      · rcases transitionTaskStatus_cases s1 .done [.merging] actor
            (some (mergeBranch g).output) with ⟨_, heq2⟩ | ⟨_, heq2⟩ <;> simp only [heq2]
        · exact sound .done (by decide) _ rfl
        · exact sound .merging (by decide) s1 hst
      · rename_i hnotdone
        have hnx : pickPostMergeStatus s1.task s1.project = .building ∨
            pickPostMergeStatus s1.task s1.project = .deploying := by
          revert hnotdone
          unfold pickPostMergeStatus
          rcases s1.task.requires_branching <;> rcases s1.project.has_build_step <;>
            rcases s1.project.has_deploy_step <;> simp
        rcases transition_fst_status s1 (pickPostMergeStatus s1.task s1.project) [.merging]
            actor (some (mergeBranch g).output) with h | h
        · refine sound (pickPostMergeStatus s1.task s1.project) ?_ _ h
          rcases hnx with h2 | h2 <;> rw [h2] <;> decide
        · exact sound .merging (by decide) _ (by rw [h, hst])

lemma statusSound_merge (g : GitMergeExec) (nowT : Nat) (actor reason : Option String)
    (s : WfState) :
    StatusSound s (task_merge g nowT actor reason s).1 := by
  cases hrb : s.task.requires_branching
  case false =>
    simp only [task_merge, hrb, Bool.not_false, if_true]
    by_cases hdone : pickPostMergeStatus s.task s.project = .done
    · rw [if_pos hdone]
      exact statusSound_complete nowT actor (some "completed without merge") s
    · rw [if_neg hdone]
      have hnx : pickPostMergeStatus s.task s.project = .building ∨
          pickPostMergeStatus s.task s.project = .deploying := by
        revert hdone
        unfold pickPostMergeStatus
        rcases s.project.has_build_step <;> rcases s.project.has_deploy_step <;> simp [hrb]
      apply statusSound_transition
      intro f hf
      rcases hnx with h | h <;> rw [h] <;> fin_cases hf <;> exact codeAllowed_of_base (by decide)
  case true =>
    rcases transitionTaskStatus_cases s .merging [.approved, .merge_conflict] actor
        (some (reason.getD "merging")) with ⟨hmem, heq⟩ | ⟨_, heq⟩
    · have hmem' : s.task.status = .approved ∨ s.task.status = .merge_conflict := by
        simpa using hmem
      simp only [task_merge, hrb, Bool.not_true, if_false, heq]
      apply statusSound_merge_git_phase g nowT actor s _ rfl
      intro t2 ht2
      rcases hmem' with h | h
      · right; rw [h]; fin_cases ht2 <;> exact codeAllowed_of_base (by decide)
      · fin_cases ht2
        · right; rw [h]; exact codeAllowed_of_base (by decide)
        · left; rw [h]
        · right; rw [h]; exact codeAllowed_of_base (by decide)
        · right; rw [h]; exact codeAllowed_of_base (by decide)
        · right; rw [h]; exact codeAllowed_of_base (by decide)
    · simp only [task_merge, hrb, Bool.not_true, if_false, heq]
      exact Or.inl rfl

/-- A concrete project row for witnesses and counterexamples. -/
def sampleProject : ProjectRow :=
  { id := "p1", workspace_path := some "/ws", has_build_step := true,
    has_deploy_step := true }

/-- A concrete task row with the given status and flags. -/
def mkTask (st : TaskStatus) (sbb : Option TaskStatus) (rb rhr : Bool) : TaskRow :=
  { id := 1, project_id := "p1", title := "t", status := st,
    status_before_blocked := sbb, requires_branching := rb,
    requires_human_review := rhr, priority := 0, git_branch := none,
    worktree_path := none, block_reason := none, created_at := 0,
    completed_at := none }

/-- A concrete workflow state slice with the given status and flags. -/
def mkState (st : TaskStatus) (sbb : Option TaskStatus) (rb rhr : Bool) : WfState :=
  { task := mkTask st sbb rb rhr, project := sampleProject, history := [] }

/-- C1, counterexample: `task_complete` on a `requirements` task succeeds and
moves it straight to `done`, but `done` is not a `to_status` listed for
`requirements` in the section-3 table (with its blocked/cancelled rules), and
the status did change — so the claimed soundness with respect to the
section-3 table is false. -/
theorem c1_spec_table_counterexample :
    (applyAction .complete 0 none none (mkState .requirements none false true)).2 = none ∧
    ¬ ((applyAction .complete 0 none none
          (mkState .requirements none false true)).1.task.status =
        (mkState .requirements none false true).task.status ∨
      specSection3Allowed (mkState .requirements none false true).task.status_before_blocked
        (mkState .requirements none false true).task.status
        (applyAction .complete 0 none none
          (mkState .requirements none false true)).1.task.status = true) := by
  decide

/-- C1 (amended): for every task state and every workflow action, the
post-call status is either unchanged or is a valid `to_status` for the prior
status in the section-3 table extended with the transitions the action code
additionally enforces (`codeAllowed`): force-completion to `done` from every
non-terminal status, the non-branching skip-ahead of `task_merge`,
`task_build`/`task_deploy` from `approved`, `task_merge`'s within-one-call
advance from `approved`/`merge_conflict`, and auto-approval from
`changes_requested`. -/
theorem c1_transition_soundness (a : WfAction) (nowT : Nat)
    (actor reason : Option String) (s : WfState) :
    (applyAction a nowT actor reason s).1.task.status = s.task.status ∨
    codeAllowed s.task.status_before_blocked s.task.status
      (applyAction a nowT actor reason s).1.task.status = true := by
  cases a
  case start gitOk => exact statusSound_start gitOk actor reason s
  case requestReview => exact statusSound_requestReview actor reason s
  case approve => exact statusSound_approve actor reason s
  case requestChanges => exact statusSound_requestChanges actor reason s
  case merge g => exact statusSound_merge g nowT actor reason s
  case resolveConflict => exact statusSound_resolveConflict actor reason s
  case build => exact statusSound_build actor reason s
  case deploy => exact statusSound_deploy actor reason s
  case complete => exact statusSound_complete nowT actor reason s
  case cancel => exact statusSound_cancel actor reason s
  case block => exact statusSound_block actor reason s
  case unblock => exact statusSound_unblock actor reason s

/-- C2, code bug: `task_deploy` on a `deploying` task succeeds, moves the
task to `done`, and leaves `completed_at` NULL — the `task_deploy` (and the
`task_build` straight-to-`done`) paths never write `completed_at`, so the
spec invariant `completed_at` is non-null iff status is `done` fails. -/
theorem c2_completed_at_bug :
    (task_deploy none none (mkState .deploying none false true)).2 = none ∧
    (task_deploy none none (mkState .deploying none false true)).1.task.status = .done ∧
    (task_deploy none none (mkState .deploying none false true)).1.task.completed_at
      = none := by
  decide

/-- C9: `task_block` on an already-blocked task is a silent no-op — it
returns the state unchanged (same row, same history, no update) with no
error. -/
theorem c9_block_idempotent_on_blocked (actor reason : Option String) (s : WfState)
    (h : s.task.status = .blocked) :
    task_block actor reason s = (s, none) := by
  simp [task_block, if_pos h]

/-- C9 witness: the no-op applied to a concrete blocked task. -/
theorem c9_block_idempotent_on_blocked_witness :
    task_block none none (mkState .blocked (some .merging) false true) =
      (mkState .blocked (some .merging) false true, none) :=
  c9_block_idempotent_on_blocked none none _ rfl

/-- C5: for a task in `implementing` or `changes_requested`,
`task_request_review` succeeds and leaves the task `approved` when
`requires_human_review` is false — appending a history row with reason
`"auto-approved"` — and leaves it `review_requested` when it is true. -/
theorem c5_auto_approve_law (actor reason : Option String) (s : WfState)
    (h : s.task.status = .implementing ∨ s.task.status = .changes_requested) :
    (s.task.requires_human_review = false →
      (task_request_review actor reason s).2 = none ∧
      (task_request_review actor reason s).1.task.status = .approved ∧
      (task_request_review actor reason s).1.history =
        s.history ++ [⟨some s.task.status, .approved, actor, some "auto-approved"⟩]) ∧
    (s.task.requires_human_review = true →
      (task_request_review actor reason s).2 = none ∧
      (task_request_review actor reason s).1.task.status = .review_requested) := by
  constructor
  · intro hr
    have hmem : s.task.status ∈
        ([.review_requested, .implementing, .changes_requested] : List TaskStatus) := by
      rcases h with h | h <;> rw [h] <;> decide
    simp only [task_request_review, task_approve, hr, Bool.not_false, if_true,
      Option.getD_some]
    rcases transitionTaskStatus_cases s .approved
        [.review_requested, .implementing, .changes_requested] actor
        (some "auto-approved") with ⟨_, heq⟩ | ⟨hnm, _⟩
    · rw [heq]; exact ⟨rfl, rfl, rfl⟩
    · exact absurd hmem hnm
  · intro hr
    have hmem : s.task.status ∈
        ([.implementing, .changes_requested] : List TaskStatus) := by
      rcases h with h | h <;> rw [h] <;> decide
    simp only [task_request_review, hr, Bool.not_true, if_false]
    rcases transitionTaskStatus_cases s .review_requested
        [.implementing, .changes_requested] actor
        (some (reason.getD "review requested")) with ⟨_, heq⟩ | ⟨hnm, _⟩
    · rw [heq]; exact ⟨rfl, rfl⟩
    · exact absurd hmem hnm

/-- C5 witness: both branches of the auto-approve law at a concrete
`implementing` task. -/
theorem c5_auto_approve_law_witness :
    (task_request_review none none (mkState .implementing none false false)).1.task.status
        = .approved ∧
    (task_request_review none none (mkState .implementing none false true)).1.task.status
        = .review_requested :=
  ⟨((c5_auto_approve_law none none (mkState .implementing none false false)
      (Or.inl rfl)).1 rfl).2.1,
   ((c5_auto_approve_law none none (mkState .implementing none false true)
      (Or.inl rfl)).2 rfl).2⟩

lemma task_unblock_restores (actor reason : Option String) (s2 : WfState)
    (hbl : s2.task.status = .blocked) :
    (task_unblock actor reason s2).1.task.status =
      s2.task.status_before_blocked.getD .requirements ∧
    (task_unblock actor reason s2).2 = none := by
  simp only [task_unblock, if_neg (not_not_intro hbl)]
  rcases transitionTaskStatus_cases
      ⟨{ s2.task with status_before_blocked := none, block_reason := none }, s2.project, s2.history⟩
      (s2.task.status_before_blocked.getD .requirements) [.blocked] actor
      (some (reason.getD "unblocked"))
      with ⟨_, heq2⟩ | ⟨hnm2, _⟩
  · rw [heq2]; exact ⟨rfl, rfl⟩
  · exact absurd (by simpa using hbl) hnm2

/-- C8: for a task whose status is none of `done`, `cancelled` or `blocked`,
`task_block` followed by `task_unblock` returns the task to its original
status. -/
theorem c8_block_roundtrip (actor1 reason1 actor2 reason2 : Option String) (s : WfState)
    (h1 : s.task.status ≠ .done) (h2 : s.task.status ≠ .cancelled)
    (h3 : s.task.status ≠ .blocked) :
    (task_unblock actor2 reason2 (task_block actor1 reason1 s).1).1.task.status =
      s.task.status := by
  have henum : s.task.status ∈ BLOCKABLE_STATUSES := by
    cases hst : s.task.status <;>
      first
        | decide
        | exact absurd hst h1
        | exact absurd hst h2
        | exact absurd hst h3
  simp only [task_block, if_neg h3, if_pos henum]
  rcases transitionTaskStatus_cases
      ⟨{ s.task with status_before_blocked := some s.task.status, block_reason := reason1 }, s.project, s.history⟩
      .blocked BLOCKABLE_STATUSES actor1 (some (reason1.getD "blocked"))
      with ⟨_, heq⟩ | ⟨hnm, _⟩
  · rw [heq]
    rw [(task_unblock_restores actor2 reason2 _ rfl).1]
    rfl
  · exact absurd henum hnm

/-- C8 witness. -/
theorem c8_block_roundtrip_witness :
    (task_unblock none none
        (task_block none none (mkState .implementing none false true)).1).1.task.status =
      .implementing :=
  c8_block_roundtrip none none none none (mkState .implementing none false true)
    (by decide) (by decide) (by decide)

/-- The section-3 invariant on `status_before_blocked`: non-null exactly when
the task is blocked. -/
def SbbInvariant (s : WfState) : Prop :=
  (s.task.status = .blocked → s.task.status_before_blocked ≠ none) ∧
  (s.task.status ≠ .blocked → s.task.status_before_blocked = none)

/-- Well-formedness enforced by the `status_before_blocked` ENUM column: any
saved status is one of the nine blockable statuses. -/
def SbbEnumOk (s : WfState) : Prop :=
  ∀ x, s.task.status_before_blocked = some x → x ∈ BLOCKABLE_STATUSES

lemma sbbInv_transition {s : WfState} (toS : TaskStatus) (allowed : List TaskStatus)
    (actor reason : Option String) (hinv : SbbInvariant s)
    (hto : toS ≠ .blocked) (hfrom : .blocked ∉ allowed ∨ s.task.status ≠ .blocked) :
    SbbInvariant (transitionTaskStatus s toS allowed actor reason).1 := by
  rcases transitionTaskStatus_cases s toS allowed actor reason with ⟨hmem, heq⟩ | ⟨_, heq⟩ <;>
    rw [heq]
  · have hsb : s.task.status ≠ .blocked := by
      rcases hfrom with hf | hf
      · intro hb; rw [hb] at hmem; exact hf hmem
      · exact hf
    exact ⟨fun hb => absurd hb hto, fun _ => hinv.2 hsb⟩
  · exact hinv

lemma c4_sbb_invariant_aux_merge_phase (g : GitMergeExec) (nowT : Nat)
    (actor : Option String) (s1 : WfState) (hinv : SbbInvariant s1)
    (hbl : s1.task.status = .merging) :
    SbbInvariant (task_merge_git_phase g nowT actor s1).1 := by
  have hsb : s1.task.status ≠ .blocked := by rw [hbl]; decide
  unfold task_merge_git_phase
  dsimp only
  split
  · exact hinv
  · split
    · split
      · exact sbbInv_transition .merge_conflict [.merging] actor _ hinv (by decide)
          (Or.inl (by decide))
      · exact hinv
    · split
      · rcases transitionTaskStatus_cases s1 .done [.merging] actor
            (some (mergeBranch g).output) with ⟨_, heq2⟩ | ⟨_, heq2⟩ <;> simp only [heq2]
        · exact ⟨fun hb => by simp at hb, fun _ => hinv.2 hsb⟩
        · exact hinv
      · rename_i hnotdone
        have hnx : pickPostMergeStatus s1.task s1.project = .building ∨
            pickPostMergeStatus s1.task s1.project = .deploying := by
          revert hnotdone
          unfold pickPostMergeStatus
          rcases s1.task.requires_branching <;> rcases s1.project.has_build_step <;>
            rcases s1.project.has_deploy_step <;> simp
        refine sbbInv_transition _ [.merging] actor _ hinv ?_ (Or.inl (by decide))
        rcases hnx with h | h <;> rw [h] <;> decide

/-- C4 (amended): `task_block` saves the prior status into
`status_before_blocked` and `task_unblock` clears it, and the invariant
"`status_before_blocked` is non-null iff the status is `blocked`" is preserved
by every workflow action EXCEPT `task_cancel` applied to a blocked task (which
moves the task to `cancelled` without clearing the saved status), assuming the
saved status is one of the nine blockable statuses, as the ENUM column
enforces. -/
theorem c4_sbb_invariant (a : WfAction) (nowT : Nat) (actor reason : Option String)
    (s : WfState) (hwf : SbbEnumOk s) (hinv : SbbInvariant s)
    (hexc : a = .cancel → s.task.status ≠ .blocked) :
    SbbInvariant (applyAction a nowT actor reason s).1 := by
  have keep : ∀ s2 : WfState, s2.task.status ≠ .blocked →
      s2.task.status_before_blocked = none → SbbInvariant s2 :=
    fun s2 h1 h2 => ⟨fun hb => absurd hb h1, fun _ => h2⟩
  cases a
  case start gitOk =>
    rcases transitionTaskStatus_cases s .implementing [.requirements, .changes_requested]
        actor (some (reason.getD "task started")) with ⟨hmem, heq⟩ | ⟨_, heq⟩ <;>
      simp only [applyAction, task_start, heq]
    · have hsb : s.task.status ≠ .blocked := by
        intro hb; rw [hb] at hmem; exact absurd hmem (by decide)
      rcases hgit : gitOk <;> rcases hrb : s.task.requires_branching <;>
        rcases hws : s.project.workspace_path with _ | ws <;>
        simp only [hgit, hrb, hws] <;>
        exact ⟨fun hb => by simp at hb, fun _ => hinv.2 hsb⟩
    · exact hinv
  case requestReview =>
    cases hr : s.task.requires_human_review
    · simp only [applyAction, task_request_review, hr, Bool.not_false, if_true,
        task_approve, Bool.not_false]
      exact sbbInv_transition _ _ _ _ hinv (by decide) (Or.inl (by decide))
    · simp only [applyAction, task_request_review, hr, Bool.not_true, if_false]
      exact sbbInv_transition _ _ _ _ hinv (by decide) (Or.inl (by decide))
  case approve =>
    cases hr : s.task.requires_human_review <;>
      simp only [applyAction, task_approve, hr, Bool.not_false, Bool.not_true,
        if_true, if_false] <;>
      exact sbbInv_transition _ _ _ _ hinv (by decide) (Or.inl (by decide))
  case requestChanges =>
    exact sbbInv_transition _ _ _ _ hinv (by decide) (Or.inl (by decide))
  case merge g =>
    cases hrb : s.task.requires_branching
    case false =>
      simp only [applyAction, task_merge, hrb, Bool.not_false, if_true]
      by_cases hdone : pickPostMergeStatus s.task s.project = .done
      · rw [if_pos hdone]
        rcases transitionTaskStatus_cases s .done
            [.requirements, .implementing, .review_requested, .approved, .changes_requested,
             .merging, .building, .deploying, .merge_conflict]
            actor (some "completed without merge")
            with ⟨hmem, heq⟩ | ⟨_, heq⟩ <;> simp only [task_complete, Option.getD_some, heq]
        · have hsb : s.task.status ≠ .blocked := by
            intro hb; rw [hb] at hmem; exact absurd hmem (by decide)
          exact ⟨fun hb => by simp at hb, fun _ => hinv.2 hsb⟩
        · exact hinv
      · rw [if_neg hdone]
        have hnx : pickPostMergeStatus s.task s.project = .building ∨
            pickPostMergeStatus s.task s.project = .deploying := by
          revert hdone
          unfold pickPostMergeStatus
          rcases s.project.has_build_step <;> rcases s.project.has_deploy_step <;> simp [hrb]
        refine sbbInv_transition _ _ _ _ hinv ?_ (Or.inl (by decide))
        rcases hnx with h | h <;> rw [h] <;> decide
    case true =>
      rcases transitionTaskStatus_cases s .merging [.approved, .merge_conflict] actor
          (some (reason.getD "merging")) with ⟨hmem, heq⟩ | ⟨_, heq⟩ <;>
        simp only [applyAction, task_merge, hrb, Bool.not_true, if_false, heq]
      · have hsb : s.task.status ≠ .blocked := by
          intro hb; rw [hb] at hmem; exact absurd hmem (by decide)
        refine c4_sbb_invariant_aux_merge_phase g nowT actor _ ?_ rfl
        exact ⟨fun hb => by simp at hb, fun _ => hinv.2 hsb⟩
      · exact hinv
  case resolveConflict =>
    exact sbbInv_transition _ _ _ _ hinv (by decide) (Or.inl (by decide))
  case build =>
    cases hb : s.project.has_build_step
    · simp only [applyAction, task_build, hb, Bool.not_false, if_true]
      exact hinv
    · cases hd : s.project.has_deploy_step <;>
        simp only [applyAction, task_build, hb, hd, Bool.not_true, if_false, if_true] <;>
        exact sbbInv_transition _ _ _ _ hinv (by decide) (Or.inl (by decide))
  case deploy =>
    exact sbbInv_transition _ _ _ _ hinv (by decide) (Or.inl (by decide))
  case complete =>
    rcases transitionTaskStatus_cases s .done
        [.requirements, .implementing, .review_requested, .approved, .changes_requested,
         .merging, .building, .deploying, .merge_conflict]
        actor (some (reason.getD "completed")) with ⟨hmem, heq⟩ | ⟨_, heq⟩ <;>
      simp only [applyAction, task_complete, heq]
    · have hsb : s.task.status ≠ .blocked := by
        intro hb; rw [hb] at hmem; exact absurd hmem (by decide)
      exact ⟨fun hb => by simp at hb, fun _ => hinv.2 hsb⟩
    · exact hinv
  case cancel =>
    exact sbbInv_transition _ _ _ _ hinv (by decide) (Or.inr (hexc rfl))
  case block =>
    by_cases hbl : s.task.status = .blocked
    · simp only [applyAction, task_block, if_pos hbl]
      exact hinv
    · by_cases henum : s.task.status ∈ BLOCKABLE_STATUSES
      · simp only [applyAction, task_block, if_neg hbl, if_pos henum]
        rcases transitionTaskStatus_cases
            ⟨{ s.task with status_before_blocked := some s.task.status, block_reason := reason }, s.project, s.history⟩
            .blocked BLOCKABLE_STATUSES actor (some (reason.getD "blocked"))
            with ⟨_, heq⟩ | ⟨hnm, _⟩
        · rw [heq]
          exact ⟨fun _ => by simp, fun hnb => absurd rfl hnb⟩
        · exact absurd henum hnm
      · simp only [applyAction, task_block, if_neg hbl, if_neg henum]
        exact hinv
  case unblock =>
    by_cases hbl : s.task.status = .blocked
    · rcases hsbb : s.task.status_before_blocked with _ | x
      · exact absurd hsbb (hinv.1 hbl)
      · have hxmem : x ∈ BLOCKABLE_STATUSES := hwf x hsbb
        have hxne : x ≠ .blocked := by
          intro e; rw [e] at hxmem; exact absurd hxmem (by decide)
        simp only [applyAction, task_unblock, if_neg (not_not_intro hbl), hsbb,
          Option.getD_some]
        rcases transitionTaskStatus_cases
            ⟨{ s.task with status_before_blocked := none, block_reason := none }, s.project, s.history⟩
            x [.blocked] actor (some (reason.getD "unblocked"))
            with ⟨_, heq⟩ | ⟨hnm, _⟩
        · rw [heq]
          exact ⟨fun hb => absurd hb hxne, fun _ => rfl⟩
        · exact absurd (by simpa using hbl) hnm
    · simp only [applyAction, task_unblock, if_pos hbl]
      exact hinv

/-- C4, counterexample: `task_cancel` on a blocked task succeeds, moves it to
`cancelled`, and leaves `status_before_blocked` set — so the claimed
invariant "`status_before_blocked` is non-null iff status is `blocked`", and
in particular the claim that `task_cancel` from `blocked` clears the field,
is false. -/
theorem c4_cancel_from_blocked_counterexample :
    (task_cancel none none (mkState .blocked (some .implementing) false true)).2 = none ∧
    (task_cancel none none
        (mkState .blocked (some .implementing) false true)).1.task.status = .cancelled ∧
    (task_cancel none none
        (mkState .blocked (some .implementing) false true)).1.task.status_before_blocked
      = some .implementing := by
  decide

/-- C4 witness: the amended invariant theorem applied to `task_block` on an
`implementing` task. -/
theorem c4_sbb_invariant_witness :
    SbbInvariant (applyAction .block 0 none none (mkState .implementing none false true)).1 :=
  c4_sbb_invariant .block 0 none none (mkState .implementing none false true)
    (fun _ hx => nomatch hx)
    ⟨fun hb => (nomatch hb), fun _ => rfl⟩
    (fun h => nomatch h)

lemma taskBefore_irrefl (a : TaskRow) : ¬ taskBefore a a := by
  unfold taskBefore; omega

lemma taskBefore_trans {a b c : TaskRow} (h1 : taskBefore a b) (h2 : taskBefore b c) :
    taskBefore a c := by
  unfold taskBefore at *; omega

lemma taskBefore_cross {a b c : TaskRow} (h1 : ¬ taskBefore a b) (h2 : taskBefore a c) :
    taskBefore b c := by
  unfold taskBefore at *; omega

lemma orderPick_ne_none (acc : Option TaskRow) (t : TaskRow) : orderPick acc t ≠ none := by
  rcases acc with _ | b <;> simp only [orderPick]
  · simp
  · split <;> simp

lemma foldl_orderPick_spec (l : List TaskRow) :
    ∀ acc : Option TaskRow,
    (l.foldl orderPick acc = none → acc = none ∧ l = []) ∧
    (∀ r, l.foldl orderPick acc = some r →
      (r ∈ l ∨ acc = some r) ∧
      (∀ u ∈ l, ¬ taskBefore u r) ∧
      (∀ b, acc = some b → ¬ taskBefore b r)) := by
  induction l with
  | nil =>
    intro acc
    refine ⟨fun h => ⟨h, rfl⟩, fun r hr => ⟨Or.inr hr, fun u hu => absurd hu (by simp), ?_⟩⟩
    intro b hb
    rw [hb] at hr
    cases hr
    exact taskBefore_irrefl r
  | cons t l ih =>
    intro acc
    constructor
    · intro h
      have := ((ih (orderPick acc t)).1 (by simpa using h)).1
      exact absurd this (orderPick_ne_none acc t)
    · intro r hr
      have hr' : l.foldl orderPick (orderPick acc t) = some r := by simpa using hr
      obtain ⟨hmem, hminL, hminAcc⟩ := (ih (orderPick acc t)).2 r hr'
      rcases acc with _ | b0
      · -- acc = none: orderPick none t = some t
        have hnt : ¬ taskBefore t r := hminAcc t rfl
        refine ⟨?_, ?_, ?_⟩
        · rcases hmem with h | h
          · exact Or.inl (List.mem_cons_of_mem _ h)
          · cases h; exact Or.inl (List.mem_cons_self _ _)
        · intro u hu
          rcases List.mem_cons.mp hu with h | h
          · rw [h]; exact hnt
          · exact hminL u h
        · intro b hb
          cases hb
      · -- acc = some b0
        by_cases hbt : taskBefore t b0
        · have hacc : orderPick (some b0) t = some t := by simp [orderPick, hbt]
          rw [hacc] at hmem hminAcc
          have hnt : ¬ taskBefore t r := hminAcc t rfl
          refine ⟨?_, ?_, ?_⟩
          · rcases hmem with h | h
            · exact Or.inl (List.mem_cons_of_mem _ h)
            · cases h; exact Or.inl (List.mem_cons_self _ _)
          · intro u hu
            rcases List.mem_cons.mp hu with h | h
            · rw [h]; exact hnt
            · exact hminL u h
          · intro b hb
            cases hb
            intro hbr
            exact hnt (taskBefore_trans hbt hbr)
        · have hacc : orderPick (some b0) t = some b0 := by simp [orderPick, hbt]
          rw [hacc] at hmem hminAcc
          have hnb : ¬ taskBefore b0 r := hminAcc b0 rfl
          refine ⟨?_, ?_, ?_⟩
          · rcases hmem with h | h
            · exact Or.inl (List.mem_cons_of_mem _ h)
            · cases h; exact Or.inr rfl
          · intro u hu
            rcases List.mem_cons.mp hu with h | h
            · rw [h]
              intro htr
              exact hnb (taskBefore_cross hbt htr)
            · exact hminL u h
          · intro b hb
            cases hb
            exact hnb

/-- Dependency readiness as the claim words it: every `depends_on` edge of `t`
whose target row exists has that target in status `done` (the SQL join
semantics of `task_next`). -/
def DepsSatisfied (db : TaskDb) (t : TaskRow) : Prop :=
  ∀ d ∈ db.deps, d.task_id = t.id →
    ∀ dep ∈ db.tasks, dep.id = d.depends_on_id → dep.status = .done

/-- A task `task_next` may return: right project, status in the six-value
eligible set, dependencies all done. -/
def EligibleNext (db : TaskDb) (projectId : String) (t : TaskRow) : Prop :=
  t.project_id = projectId ∧
  t.status ∈ ([.requirements, .implementing, .changes_requested, .review_requested,
    .approved, .merge_conflict] : List TaskStatus) ∧
  DepsSatisfied db t

lemma taskNextWhere_iff (db : TaskDb) (projectId : String) (t : TaskRow) :
    taskNextWhere db projectId t = true ↔ EligibleNext db projectId t := by
  unfold taskNextWhere EligibleNext DepsSatisfied hasUnmetDep
  simp only [Bool.and_eq_true, beq_iff_eq, Bool.not_eq_true', List.any_eq_false,
    List.elem_iff, Bool.and_eq_false_iff, bne_eq_false_iff_eq, beq_eq_false_iff_ne]
  constructor
  · rintro ⟨⟨⟨hproj, hmem⟩, _⟩, hdeps⟩
    refine ⟨hproj, hmem, fun d hd hid dep hdep hdid => ?_⟩
    have h' := hdeps d hd
    by_contra hne
    apply h'
    refine ⟨hid, ?_⟩
    simp only [List.any_eq_true, Bool.and_eq_true, beq_iff_eq, bne_iff_ne]
    exact ⟨dep, hdep, hdid, hne⟩
  · rintro ⟨hproj, hmem, hdeps⟩
    refine ⟨⟨⟨hproj, hmem⟩, ?_⟩, fun d hd => ?_⟩
    · simp only [bne_iff_ne]
      intro hbl
      rw [hbl] at hmem
      exact absurd hmem (by decide)
    · rintro ⟨hid, hany⟩
      simp only [List.any_eq_true, Bool.and_eq_true, beq_iff_eq, bne_iff_ne] at hany
      obtain ⟨dep, hdep, hdid, hne⟩ := hany
      exact hne (hdeps d hd hid dep hdep hdid)

/-- C3: `task_next` returns `null` only when no task of the project is
eligible; and when it returns a task, that task belongs to the store, is
eligible (right project, status in the six-value set, all dependencies
`done`), and no other eligible task sorts strictly before it under
`(priority DESC, created_at ASC, id ASC)`. -/
theorem c3_task_next (db : TaskDb) (projectId : String) :
    (task_next db projectId = none → ∀ t ∈ db.tasks, ¬ EligibleNext db projectId t) ∧
    (∀ r, task_next db projectId = some r →
      r ∈ db.tasks ∧ EligibleNext db projectId r ∧
      ∀ u ∈ db.tasks, EligibleNext db projectId u → ¬ taskBefore u r) := by
  have hspec := foldl_orderPick_spec (db.tasks.filter (taskNextWhere db projectId)) none
  constructor
  · intro hnone t ht helig
    have hempty := (hspec.1 hnone).2
    have hmem : t ∈ db.tasks.filter (taskNextWhere db projectId) :=
      List.mem_filter.mpr ⟨ht, (taskNextWhere_iff db projectId t).mpr helig⟩
    rw [hempty] at hmem
    exact absurd hmem (by simp)
  · intro r hr
    obtain ⟨hmem, hmin, _⟩ := hspec.2 r hr
    have hmem' : r ∈ db.tasks.filter (taskNextWhere db projectId) := by
      rcases hmem with h | h
      · exact h
      · cases h
    obtain ⟨hrt, hrw⟩ := List.mem_filter.mp hmem'
    refine ⟨hrt, (taskNextWhere_iff db projectId r).mp hrw, ?_⟩
    intro u hu huel
    exact hmin u (List.mem_filter.mpr ⟨hu, (taskNextWhere_iff db projectId u).mpr huel⟩)

def sampleDbTaskA : TaskRow := mkTask .requirements none false true

def sampleDbTaskB : TaskRow :=
  { mkTask .requirements none false true with id := 2, priority := 5 }

def sampleDb : TaskDb :=
  { tasks := [sampleDbTaskA, sampleDbTaskB],
    deps := [{ task_id := 2, depends_on_id := 1 }] }

/-- C3 witness: the spec applied to a concrete two-task store where the
higher-priority task is blocked by an unfinished dependency. -/
theorem c3_task_next_witness :
    sampleDbTaskA ∈ sampleDb.tasks ∧ EligibleNext sampleDb "p1" sampleDbTaskA ∧
      ∀ u ∈ sampleDb.tasks, EligibleNext sampleDb "p1" u → ¬ taskBefore u sampleDbTaskA :=
  (c3_task_next sampleDb "p1").2 sampleDbTaskA (by decide)

lemma reconcileStatus_sound (alive : Int → Bool) (nowT : Int) (t3 : TaskRecord)
    (c2 : Bool) (hsa : t3.stdinAttached = false) :
    (isTerminal (reconcileStatus alive nowT t3 c2).1.status = true ∨
      (((reconcileStatus alive nowT t3 c2).1.status = .running ∨
        (reconcileStatus alive nowT t3 c2).1.status = .pending) ∧
        ∃ p, (reconcileStatus alive nowT t3 c2).1.pid = some p ∧ alive p = true)) ∧
    (reconcileStatus alive nowT t3 c2).1.stdinAttached = false := by
  unfold reconcileStatus
  dsimp only
  by_cases hrun : t3.status = .running ∨ t3.status = .pending
  · rw [if_pos hrun]
    rcases hp : t3.pid with _ | p <;> simp only [hp]
    · exact ⟨Or.inl rfl, hsa⟩
    · by_cases hz : p = 0
      · rw [if_pos hz]
        exact ⟨Or.inl rfl, hsa⟩
      · rw [if_neg hz]
        by_cases ha : alive p = true
        · rw [if_pos ha]
          exact ⟨Or.inr ⟨hrun, p, hp, ha⟩, hsa⟩
        · rw [if_neg ha]
          exact ⟨Or.inl rfl, hsa⟩
  · rw [if_neg hrun]
    by_cases hterm : isTerminal t3.status = true
    · rw [if_neg (by simp [hterm])]
      exact ⟨Or.inl hterm, hsa⟩
    · rw [if_pos (by simp [Bool.not_eq_true] at hterm ⊢; exact hterm)]
      exact ⟨Or.inl rfl, hsa⟩

lemma refreshPaths_preserves (dir : String) (t0 : TaskRecord) :
    (refreshPaths dir t0).1.status = t0.status ∧
    (refreshPaths dir t0).1.pid = t0.pid ∧
    (refreshPaths dir t0).1.endedAt = t0.endedAt ∧
    (refreshPaths dir t0).1.stdinAttached = t0.stdinAttached := by
  unfold refreshPaths
  rcases hlog : t0.logPath with _ | lp <;> rcases hpp : t0.pidPath with _ | pp <;>
    simp [hlog, hpp]

lemma reconcileStatus_lost (alive : Int → Bool) (nowT : Int) (t3 : TaskRecord)
    (c2 : Bool) (hrun : t3.status = .running ∨ t3.status = .pending)
    (hdead : ∀ p, t3.pid = some p → alive p = false) :
    (reconcileStatus alive nowT t3 c2).1.status = .lost ∧
    (reconcileStatus alive nowT t3 c2).1.endedAt ≠ none := by
  unfold reconcileStatus
  dsimp only
  rw [if_pos hrun]
  rcases hp : t3.pid with _ | p <;> simp only [hp]
  · exact ⟨by simp, by simp⟩
  · by_cases hz : p = 0
    · rw [if_pos hz]
      exact ⟨by simp, by simp⟩
    · rw [if_neg hz, if_neg (by simp [hdead p hp])]
      exact ⟨by simp, by simp⟩

lemma recoverRecord_sound (alive : Int → Bool) (nowT : Int) (dir : String)
    (t0 : TaskRecord) :
    (isTerminal (recoverRecord alive nowT dir t0).1.status = true ∨
      (((recoverRecord alive nowT dir t0).1.status = .running ∨
        (recoverRecord alive nowT dir t0).1.status = .pending) ∧
        ∃ p, (recoverRecord alive nowT dir t0).1.pid = some p ∧ alive p = true)) ∧
    (recoverRecord alive nowT dir t0).1.stdinAttached = false := by
  rcases hr : refreshPaths dir t0 with ⟨t2, c2⟩
  simp only [recoverRecord, hr]
  exact reconcileStatus_sound alive nowT _ c2 rfl

lemma recoverRecord_lost (alive : Int → Bool) (nowT : Int) (dir : String)
    (t0 : TaskRecord) (hrun : t0.status = .running ∨ t0.status = .pending)
    (hdead : ∀ p, t0.pid = some p → alive p = false) :
    (recoverRecord alive nowT dir t0).1.status = .lost ∧
    (recoverRecord alive nowT dir t0).1.endedAt ≠ none := by
  obtain ⟨hst, hpid, _, _⟩ := refreshPaths_preserves dir t0
  rcases hr : refreshPaths dir t0 with ⟨t2, c2⟩
  rw [hr] at hst hpid
  simp only [recoverRecord, hr]
  refine reconcileStatus_lost alive nowT _ c2 ?_ ?_
  · rw [hst]; exact hrun
  · intro p hp
    exact hdead p (by rw [← hpid]; exact hp)

/-- C6: after the reconciliation pass of `recoverTaskRunnerState`, every
record in the resulting state is terminal
(`stopped/failed/killed/timeout/lost`) or is `running`/`pending` with a
recorded live pid, and has `stdinAttached = false`; and every input record
that was `running`/`pending` with a missing or dead pid comes out `lost` with
`endedAt` set. -/
theorem c6_recovery (alive : Int → Bool) (nowT : Int) (dir : String)
    (st : TaskRunnerStateFile) :
    (∀ kv ∈ (recoverParsedState alive nowT dir st).1.tasks,
        (isTerminal kv.2.status = true ∨
          ((kv.2.status = .running ∨ kv.2.status = .pending) ∧
            ∃ p, kv.2.pid = some p ∧ alive p = true)) ∧
        kv.2.stdinAttached = false) ∧
    (∀ kv ∈ st.tasks, (kv.2.status = .running ∨ kv.2.status = .pending) →
        (∀ p, kv.2.pid = some p → alive p = false) →
        (recoverRecord alive nowT dir kv.2).1.status = .lost ∧
        (recoverRecord alive nowT dir kv.2).1.endedAt ≠ none) := by
  constructor
  · intro kv hkv
    simp only [recoverParsedState, List.map_map, List.mem_map] at hkv
    obtain ⟨kv0, hkv0, rfl⟩ := hkv
    exact recoverRecord_sound alive nowT dir kv0.2
  · intro kv hkv hrun hdead
    exact recoverRecord_lost alive nowT dir kv.2 hrun hdead

def sampleDeadRecord : TaskRecord :=
  { id := "x", status := .running, pid := some 999, command := "sleep",
    createdAt := 0, startedAt := some 0, endedAt := none, updatedAt := 0,
    logPath := some "l", pidPath := some "q", stdinAttached := true }

def sampleTrState : TaskRunnerStateFile :=
  { updatedAt := 0, tasks := [("x", sampleDeadRecord)] }

/-- C6 witness: a concrete running record whose pid probe reports dead is
reconciled to `lost`. -/
theorem c6_recovery_witness :
    (recoverRecord (fun _ => false) 7 "/base" sampleDeadRecord).1.status = .lost ∧
    (recoverRecord (fun _ => false) 7 "/base" sampleDeadRecord).1.endedAt ≠ none :=
  (c6_recovery (fun _ => false) 7 "/base" sampleTrState).2 ("x", sampleDeadRecord)
    (by decide) (Or.inl rfl) (fun p hp => rfl)

lemma ws_toLower (c : Char) : (Char.toLower c).isWhitespace = c.isWhitespace := by
  have key : ∀ d : Char, 64 ≤ d.toNat → d.toNat ≤ 123 → d.isWhitespace = false := by
    intro d hlo hhi
    by_contra hws
    rw [Bool.not_eq_false] at hws
    simp only [Char.isWhitespace, Bool.or_eq_true, decide_eq_true_eq] at hws
    rcases hws with ((h' | h') | h') | h' <;> subst h' <;> revert hlo <;> decide
  unfold Char.toLower
  by_cases h : c.toNat ≥ 65 ∧ c.toNat ≤ 90
  · rw [if_pos h]
    have hv : (c.toNat + 32).isValidChar := Or.inl (by omega)
    have hofNat : (Char.ofNat (c.toNat + 32)).toNat = c.toNat + 32 := by
      unfold Char.ofNat
      rw [dif_pos hv]
      rfl
    rw [key _ (by omega) (by omega), key c (by omega) (by omega)]
  · rw [if_neg h]

lemma infix_dropWhile_iff {n l : List Char} (hn : n ≠ [])
    (hhead : ∀ d ∈ n.head?, d.isWhitespace = false) :
    n <:+: l.dropWhile Char.isWhitespace ↔ n <:+: l := by
  obtain ⟨c, m, rfl⟩ := List.exists_cons_of_ne_nil hn
  have hc : c.isWhitespace = false := hhead c rfl
  constructor
  · intro h
    exact h.trans (List.dropWhile_suffix Char.isWhitespace).isInfix
  · rintro ⟨u, v, hl⟩
    rw [← hl]
    clear hl
    induction u with
    | nil =>
      simp only [List.nil_append, List.cons_append]
      rw [List.dropWhile_cons_of_neg (by simp [hc])]
      exact ⟨[], v, by simp⟩
    | cons a u ih =>
      simp only [List.cons_append]
      by_cases hwa : a.isWhitespace = true
      · rw [List.dropWhile_cons_of_pos hwa]
        exact ih
      · rw [List.dropWhile_cons_of_neg (by simpa using hwa)]
        exact ⟨a :: u, v, by simp⟩

lemma infix_trimList_iff {n l : List Char} (hn : n ≠ [])
    (hhead : ∀ d ∈ n.head?, d.isWhitespace = false)
    (hlast : ∀ d ∈ n.getLast?, d.isWhitespace = false) :
    n <:+: trimList l ↔ n <:+: l := by
  unfold trimList
  have hrevne : n.reverse ≠ [] := by simpa using hn
  have hrevhead : ∀ d ∈ n.reverse.head?, d.isWhitespace = false := by
    intro d hd
    exact hlast d (by rwa [List.head?_reverse] at hd)
  constructor
  · intro h
    have h1 : n.reverse <:+: (l.dropWhile Char.isWhitespace).reverse.dropWhile
        Char.isWhitespace := by
      simpa using List.reverse_infix.mpr h
    have h2 : n.reverse <:+: (l.dropWhile Char.isWhitespace).reverse :=
      (infix_dropWhile_iff hrevne hrevhead).mp h1
    have h3 : n <:+: l.dropWhile Char.isWhitespace := by
      have := List.reverse_infix.mp (by simpa using h2)
      simpa using this
    exact (infix_dropWhile_iff hn hhead).mp h3
  · intro h
    have h3 : n <:+: l.dropWhile Char.isWhitespace :=
      (infix_dropWhile_iff hn hhead).mpr h
    have h2 : n.reverse <:+: (l.dropWhile Char.isWhitespace).reverse :=
      List.reverse_infix.mpr h3
    have h1 : n.reverse <:+: (l.dropWhile Char.isWhitespace).reverse.dropWhile
        Char.isWhitespace := (infix_dropWhile_iff hrevne hrevhead).mpr h2
    have := List.reverse_infix.mpr h1
    simpa using this

lemma map_toLower_trimList (l : List Char) :
    (trimList l).map Char.toLower = trimList (l.map Char.toLower) := by
  have hws : (Char.isWhitespace ∘ Char.toLower) = Char.isWhitespace := by
    funext c
    exact ws_toLower c
  unfold trimList
  simp only [List.dropWhile_map, hws, ← List.map_reverse]

/-- The classification predicate as the claim words it: the lower-cased
concatenation of the error's `stdout`, `stderr` and `message` (each
defaulting to the empty string) contains `"conflict"` or
`"automatic merge failed"` as a substring. -/
def ConflictIndicated (stdout stderr message : Option String) : Prop :=
  "conflict".toList <:+:
      (jsToLower ((stdout.getD "") ++ (stderr.getD "") ++ (message.getD ""))).toList ∨
  "automatic merge failed".toList <:+:
      (jsToLower ((stdout.getD "") ++ (stderr.getD "") ++ (message.getD ""))).toList

lemma strIncludes_lower_trim (s needle : String) (hn : needle.toList ≠ [])
    (hhead : ∀ d ∈ needle.toList.head?, d.isWhitespace = false)
    (hlast : ∀ d ∈ needle.toList.getLast?, d.isWhitespace = false) :
    strIncludes (jsToLower (jsTrim s)) needle = true ↔
      needle.toList <:+: (jsToLower s).toList := by
  unfold strIncludes jsToLower jsTrim
  rw [decide_eq_true_iff]
  show needle.toList <:+: (trimList s.data).map Char.toLower ↔
    needle.toList <:+: s.data.map Char.toLower
  rw [map_toLower_trimList]
  exact infix_trimList_iff hn hhead hlast

/-- C7: `mergeBranch` returns `success` with no conflict exactly when the
`git merge --no-ff` child exited zero; on a non-zero exit it returns
`success:false` with `conflict` true iff the lower-cased concatenation of the
error's stdout, stderr and message contains `"conflict"` or
`"automatic merge failed"`, and it issues the best-effort `git merge --abort`
exactly in the conflict case. -/
theorem c7_mergeBranch (g : GitMergeExec) :
    (((mergeBranch g).success = true ∧ (mergeBranch g).conflict = false) ↔
      ∃ o e, g = .exitZero o e) ∧
    (∀ o e m, g = .nonZero o e m →
      (mergeBranch g).success = false ∧
      ((mergeBranch g).conflict = true ↔ ConflictIndicated o e m) ∧
      (mergeBranch g).abortIssued = (mergeBranch g).conflict) ∧
    (∀ o e, g = .exitZero o e → (mergeBranch g).abortIssued = false) := by
  refine ⟨?_, ?_, ?_⟩
  · constructor
    · intro ⟨hs, _⟩
      cases g with
      | exitZero o e => exact ⟨o, e, rfl⟩
      | nonZero o e m => simp [mergeBranch] at hs
    · rintro ⟨o, e, rfl⟩
      exact ⟨rfl, rfl⟩
  · rintro o e m rfl
    refine ⟨rfl, ?_, rfl⟩
    show (strIncludes (jsToLower (jsTrim _)) "conflict" ||
        strIncludes (jsToLower (jsTrim _)) "automatic merge failed") = true ↔ _
    rw [Bool.or_eq_true]
    unfold ConflictIndicated
    rw [strIncludes_lower_trim _ "conflict" (by decide) (by decide) (by decide),
      strIncludes_lower_trim _ "automatic merge failed" (by decide) (by decide) (by decide)]
  · rintro o e rfl
    rfl

/-- C7 witness: a concrete non-zero exit whose stderr contains `CONFLICT` is
classified as a conflict. -/
theorem c7_mergeBranch_witness :
    (mergeBranch (.nonZero (some "error: x") (some "CONFLICT (content): y") none)).success
        = false ∧
    (mergeBranch (.nonZero (some "error: x") (some "CONFLICT (content): y") none)).conflict
        = true ∧
    ConflictIndicated (some "error: x") (some "CONFLICT (content): y") none := by
  have h := (c7_mergeBranch
    (.nonZero (some "error: x") (some "CONFLICT (content): y") none)).2.1
    (some "error: x") (some "CONFLICT (content): y") none rfl
  exact ⟨h.1, by decide, h.2.1.mp (by decide)⟩

/-- C10, counterexample: a state file that exists but is empty is not
parsable as JSON (`JSON.parse("")` throws), yet `recoverTaskRunnerState`
returns `changed:false` for it — `if (!raw)` treats the empty string like a
missing file and returns before parsing — contradicting the claim that
`changed` is true whenever the present file's content is corrupt. -/
theorem c10_empty_file_counterexample :
    recoverGuardPhase (.present "") (fun _ => none) = .earlyEmpty false ∧
    (fun _ => (none : Option JSValue)) "" = none :=
  ⟨rfl, rfl⟩

/-- C10 (amended): the guard phase of `recoverTaskRunnerState` never throws
and returns the fresh empty state `{version:1, tasks:{}}` in every degenerate
case — with `changed:false` when the file is missing OR present but empty
(JS-falsy content), and `changed:true` when non-empty content fails to parse,
parses to a falsy value, has `version !== 1`, or has a `tasks` field failing
the JS `typeof === "object"` test; otherwise it proceeds into the
reconciliation loop with the parsed value. -/
theorem c10_guard_phase (parse : String → Option JSValue) :
    recoverGuardPhase .missing parse = .earlyEmpty false ∧
    (recoverGuardPhase (.present "") parse = .earlyEmpty false) ∧
    (∀ raw, raw ≠ "" → parse raw = none →
      recoverGuardPhase (.present raw) parse = .earlyEmpty true) ∧
    (∀ raw v, raw ≠ "" → parse raw = some v →
      ((v.falsy = true ∨ jsStrictEqOne (v.getField "version") = false ∨
          jsTypeofObject (v.getField "tasks") = false) →
        recoverGuardPhase (.present raw) parse = .earlyEmpty true) ∧
      (v.falsy = false → jsStrictEqOne (v.getField "version") = true →
          jsTypeofObject (v.getField "tasks") = true →
        recoverGuardPhase (.present raw) parse = .proceed v)) := by
  have hbeq : ∀ raw : String, raw ≠ "" → (raw == "") = false := by
    intro raw h
    exact beq_eq_false_iff_ne.mpr h
  refine ⟨rfl, rfl, ?_, ?_⟩
  · intro raw hne hp
    simp [recoverGuardPhase, hbeq raw hne, hp]
  · intro raw v hne hp
    constructor
    · intro hbad
      rcases hbad with h | h | h
      · simp [recoverGuardPhase, hbeq raw hne, hp, h]
      · cases hf : v.falsy
        · simp [recoverGuardPhase, hbeq raw hne, hp, h, hf]
        · simp [recoverGuardPhase, hbeq raw hne, hp, hf]
      · cases hf : v.falsy
        · cases hv : jsStrictEqOne (v.getField "version")
          · simp [recoverGuardPhase, hbeq raw hne, hp, hf, hv]
          · simp [recoverGuardPhase, hbeq raw hne, hp, hf, hv, h]
        · simp [recoverGuardPhase, hbeq raw hne, hp, hf]
    · intro h1 h2 h3
      simp [recoverGuardPhase, hbeq raw hne, hp, h1, h2, h3]

/-- C10 witness: the amended guard theorem applied to a present, non-empty,
unparsable file body. -/
theorem c10_guard_phase_witness :
    recoverGuardPhase (.present "nonsense") (fun _ => none) = .earlyEmpty true :=
  (c10_guard_phase (fun _ => none)).2.2.1 "nonsense" (by decide) rfl
